import Mathlib

/-!
Shallow embedding of the monitoring engine of `src/main.py` (a Tk-based
ping monitor).  Pure per-target logic (`update_row`, history handling),
the probe (`ping_host`), the per-tick sequential probe loop
(`check_all_hosts`) and the shutdown behaviour (`on_close` plus the Tk
event loop) are modelled as executable Lean definitions, translated
directly from the Python source.  External facilities (the `float`
builtin, the wall clock, the behaviour of the spawned `ping` process)
enter as explicit parameters.
-/

namespace PingMonitor

/-- `MAX_RTT_POINTS` from `src/main.py` line 50: history capacity. -/
def MAX_RTT_POINTS : Nat := 200

/-- One stored history entry, `(datetime.now(), rtt if is_up else None)`
from `update_row` (line 600).  The instant is abstracted as a `Nat`. -/
abbrev Sample := Nat × Option ℚ

/-- The sample appended by `update_row` line 600:
`(datetime.now(), rtt if is_up else None)`. -/
def sampleOf (is_up : Bool) (rtt : Option ℚ) (tNow : Nat) : Sample :=
  (tNow, if is_up then rtt else none)

/-- Per-target mutable state of the app: `self.prev_status[host]`
(`None` before the first completed probe) and `self.rtt_history[host]`. -/
structure RowState where
  prev : Option Bool
  hist : List Sample
deriving Repr, DecidableEq

/-- Observable effects of one `update_row` call: whether
`append_event` ran (line 616: `prev is not None and prev != is_up`)
and whether the down-alert branch ran (line 623:
`prev is True and is_up is False`, which shows the dialog and calls
`send_telegram_alert`). -/
structure RowOutput where
  emitsTransition : Bool
  alertsDown : Bool
deriving Repr, DecidableEq

/-- `PingMonitorApp.update_row` (lines 587-629) restricted to one target:
appends the sample to the history, pops index 0 when the length exceeds
`MAX_RTT_POINTS`, stores the new status, and reports which of the two
event branches fired.  GUI label updates are dropped; ordering of reads
and writes follows the source (`prev` is read before being overwritten). -/
def update_row (st : RowState) (is_up : Bool) (rtt : Option ℚ) (tNow : Nat) :
    RowState × RowOutput :=
  ({ prev := some is_up,
     hist :=
       if MAX_RTT_POINTS < (st.hist ++ [sampleOf is_up rtt tNow]).length
       then (st.hist ++ [sampleOf is_up rtt tNow]).drop 1
       else st.hist ++ [sampleOf is_up rtt tNow] },
   { emitsTransition :=
       match st.prev with
       | none => false
       | some p => p != is_up,
     alertsDown :=
       match st.prev with
       | some true => !is_up
       | _ => false })

/-- Input of one completed probe as delivered to `update_row`. -/
structure ProbeIn where
  is_up : Bool
  rtt : Option ℚ
  tNow : Nat
deriving Repr, DecidableEq

/-- One `update_row` call fed from a `ProbeIn`. -/
def stepRow (st : RowState) (p : ProbeIn) : RowState × RowOutput :=
  update_row st p.is_up p.rtt p.tNow

/-- A sequence of completed probes for one target, applied in order;
returns the final state and the per-probe outputs. -/
def runRow (st : RowState) : List ProbeIn → RowState × List RowOutput
  | [] => (st, [])
  | p :: ps =>
    ((runRow (stepRow st p).1 ps).1,
     (stepRow st p).2 :: (runRow (stepRow st p).1 ps).2)

/-- Expected alert flags of a status sequence: the flag is set exactly
when the stored previous status is known-up and the new status is down
(mirrors line 623), threading the previous status along. -/
def downFlags (prev : Option Bool) : List Bool → List Bool
  | [] => []
  | u :: us =>
    (match prev with
     | some true => !u
     | _ => false) :: downFlags (some u) us

/-- `send_telegram_alert` (lines 566-585) up to the spawned HTTP worker:
whether a delivery attempt is spawned at all (the early returns at lines
567-570). -/
def send_telegram_alert (enabled : Bool) (botToken chatId : String) : Bool :=
  enabled && botToken != "" && chatId != ""

/-- The y-series read back by `PingMonitorApp.update_graph` (line 520):
one value per stored sample in order; a failed probe's `None` (plotted
as NaN) is kept as `none`. -/
def update_graph_ys (hist : List Sample) : List (Option ℚ) :=
  hist.map (fun s => s.2)

/-- The x-series of `update_graph` (line 519): `range(1, len(hist)+1)`. -/
def update_graph_xs (hist : List Sample) : List Nat :=
  List.range' 1 hist.length

/-! ### The probe: `ping_host` (lines 55-106)

Python strings are embedded as `List Char`; `proc.stdout.splitlines()`
is the list of lines handed to the model.  The wall clock
(`elapsed_ms`), the exit status and output of the spawned process, and
the `float` builtin are external inputs. -/

/-- `str.lower()` restricted to the ASCII range (the `time=` marker the
code searches for is ASCII). -/
def pyLower (s : List Char) : List Char := s.map Char.toLower

/-- The suffix strictly after the first occurrence of `pat`, or `none`
when `pat` does not occur: together with `takeUntil` this computes
Python's `s.split(pat)[1]`, and its `isSome` is Python's `pat in s`. -/
def dropAfterFirst (pat : List Char) : List Char → Option (List Char)
  | [] => none
  | c :: rest =>
    if pat.isPrefixOf (c :: rest)
    then some (List.drop pat.length (c :: rest))
    else dropAfterFirst pat rest

/-- The segment before the next occurrence of `pat` (the whole string
when `pat` does not occur): second half of `s.split(pat)[1]`. -/
def takeUntil (pat : List Char) : List Char → List Char
  | [] => []
  | c :: rest =>
    if pat.isPrefixOf (c :: rest) then [] else c :: takeUntil pat rest

/-- Python's no-argument `str.split()`: split on whitespace runs,
dropping empty fields. -/
def splitWs (s : List Char) : List (List Char) :=
  (s.foldr
    (fun c acc =>
      if c.isWhitespace then [] :: acc
      else
        match acc with
        | [] => [[c]]
        | g :: gs => (c :: g) :: gs)
    []).filter (fun g => !g.isEmpty)

/-- Python's `str.replace(pat, "")` for a non-empty `pat`: removes every
occurrence, scanning left to right.  Fuel equals the string length so
the recursion is structural. -/
def replaceAllFuel (pat : List Char) : Nat → List Char → List Char
  | _, [] => []
  | 0, s => s
  | fuel + 1, c :: rest =>
    if pat ≠ [] ∧ pat.isPrefixOf (c :: rest)
    then replaceAllFuel pat fuel (List.drop (pat.length - 1) rest)
    else c :: replaceAllFuel pat fuel rest

/-- `s.replace(pat, "")`. -/
def replaceAll (pat s : List Char) : List Char := replaceAllFuel pat s.length s

/-- The marker searched for at line 91. -/
def timePat : List Char := "time=".toList

/-- The Latin unit suffix stripped at line 93. -/
def msPat : List Char := "ms".toList

/-- The Cyrillic unit suffix stripped at line 93. -/
def mcPat : List Char := "мс".toList

/-- The parsing loop of `ping_host` (lines 90-98): the first line whose
lowercase form contains `time=` decides the outcome.  `Except.error ()`
is the `IndexError` raised by `part.split()[0]` when nothing follows
`time=` — that exception escapes the inner `try` (which only guards
`float(value)`) and is caught by the outer handler.  `Except.ok none`
means no line matched; `Except.ok (some v)` is the cleaned token handed
to `float`. -/
def scanLines (lines : List (List Char)) : Except Unit (Option (List Char)) :=
  match lines with
  | [] => Except.ok none
  | l :: rest =>
    match dropAfterFirst timePat (pyLower l) with
    | none => scanLines rest
    | some suf =>
      match splitWs (takeUntil timePat suf) with
      | [] => Except.error ()
      | v :: _ => Except.ok (some (replaceAll mcPat (replaceAll msPat v)))

/-- Python's round-half-to-even on an exact rational. -/
def pyRoundHalfEven (q : ℚ) : ℤ :=
  if q - q.floor < 1 / 2 then q.floor
  else if 1 / 2 < q - q.floor then q.floor + 1
  else if q.floor % 2 = 0 then q.floor else q.floor + 1

/-- `round(x, 1)`: round to one decimal place (line 97 / 101). -/
def pyRound1 (q : ℚ) : ℚ := (pyRoundHalfEven (q * 10) : ℚ) / 10

/-- Behaviour of the `subprocess.run` call (lines 76-83).  `run` is
given no `timeout=` argument, so a `ping` process that never exits
makes `run` — and hence `ping_host` — wait forever: that is the
`hangs` case.  `raises` is any exception out of `run` (spawn failure
included); `exits` carries the exit code, the stdout lines and the
measured `elapsed_ms`. -/
inductive ProcBehavior where
  | hangs
  | raises
  | exits (returncode : Int) (stdoutLines : List (List Char)) (elapsedMs : ℚ)
deriving DecidableEq

/-- `ping_host` (lines 55-106), parameterised by the `float` builtin
`pf` (external; `none` = `ValueError`).  The result is `none` when the
call never returns (hanging subprocess), otherwise
`some (is_up, rtt_ms)` exactly as the Python function returns. -/
def ping_host (pf : List Char → Option ℚ) : ProcBehavior → Option (Bool × Option ℚ)
  | ProcBehavior.hangs => none
  | ProcBehavior.raises => some (false, none)
  | ProcBehavior.exits rc lines elapsed =>
    some
      (if rc ≠ 0 then (false, none)
       else
         match scanLines lines with
         | Except.error _ => (false, none)
         | Except.ok none => (true, some (pyRound1 elapsed))
         | Except.ok (some v) =>
           match pf v with
           | some r => (true, some r)
           | none => (true, some (pyRound1 elapsed)))

/-- The command built at lines 63-70: the timeout budget is passed to
the `ping` executable itself (`-w` in milliseconds on Windows, `-W` in
seconds elsewhere); nothing bounds the wait on the subprocess. -/
def pingCmd (is_windows : Bool) (timeout : Nat) (host : String) : List String :=
  if is_windows
  then ["ping", "-n", "1", "-w", toString (timeout * 1000), host]
  else ["ping", "-c", "1", "-W", toString timeout, host]

/-! ### One scheduler tick: `check_all_hosts` (lines 549-556)

`schedule_checks` (lines 543-547) spawns one worker thread per tick;
inside that single thread `check_all_hosts` iterates over the host list
and calls `ping_host` for each host in turn, posting each result with
`self.after(0, ...)` as soon as that call returns.  The timing model
below assigns each probe call a duration and computes, per host in
configuration order, the instant (relative to tick start) at which its
result is posted: each result is available only after the durations of
all earlier hosts in the same tick have elapsed. -/

/-- Posting instants of the sequential probe loop, starting at `t0`. -/
def availTimes (t0 : ℚ) : List ℚ → List ℚ
  | [] => []
  | d :: ds => (t0 + d) :: availTimes (t0 + d) ds

/-- `check_all_hosts` timing: the instant within a tick at which each
host's probe result is handed to `update_row` scheduling, given the
duration of each host's `ping_host` call, in host order. -/
def check_all_hosts_availTimes (durations : List ℚ) : List ℚ :=
  availTimes 0 durations

lemma availTimes_getD (ds : List ℚ) :
    ∀ (t0 : ℚ) (i : Nat), i < ds.length →
      (availTimes t0 ds).getD i 0 = t0 + ((ds.take (i + 1)).sum) := by
  induction ds with
  | nil => intro t0 i h; exact absurd h (by simp)
  | cons d ds ih =>
    intro t0 i h
    cases i with
    | zero => simp [availTimes]
    | succ i =>
      have hi : i < ds.length := by
        simpa using h
      calc (availTimes t0 (d :: ds)).getD (i + 1) 0
          = (availTimes (t0 + d) ds).getD i 0 := rfl
        _ = (t0 + d) + ((ds.take (i + 1)).sum) := ih (t0 + d) i hi
        _ = t0 + (((d :: ds).take (i + 1 + 1)).sum) := by
            simp [List.take]
            ring

/-! ### Shutdown: `on_close` and the Tk event loop (lines 528-547, 587)

Worker threads deliver probe results with `self.after(0, update_row,
...)`; the callback runs later on the Tk main thread.  `on_close`
(main thread) sets `_stop` and ends with `self.destroy()`.  Two facts
of the Tk runtime are part of the model: a destroyed root executes no
queued callbacks, and calling `after` on a destroyed root raises in
the worker thread, so the result is never queued.  `update_row` itself
checks nothing: delivered callbacks mutate state whenever the loop is
alive. -/

/-- Whole-app state: `self._stop`, whether the Tk root is still alive
(not destroyed), the per-target map (`prev_status` and `rtt_history`
keyed by host), and the queue of posted-but-not-yet-run `update_row`
callbacks. -/
structure SysState where
  stopFlag : Bool
  alive : Bool
  rows : List (String × RowState)
  pending : List (String × ProbeIn)
deriving Repr, DecidableEq

/-- `update_row`'s effect on the per-target map: lines 588-590 look the
host up and return without touching anything when it is absent;
otherwise that host's entry is updated. -/
def applyUpdate (rows : List (String × RowState)) (h : String) (p : ProbeIn) :
    List (String × RowState) :=
  rows.map (fun e => if e.1 = h then (e.1, (stepRow e.2 p).1) else e)

/-- Interleaved events: a worker posting a completed probe result via
`after`, the main loop running one queued callback, and `on_close`. -/
inductive SysEv where
  | post (h : String) (p : ProbeIn)
  | deliver
  | close
deriving Repr, DecidableEq

/-- One event.  `post`: `self.after` queues the callback only while the
root is alive (on a destroyed root it raises in the worker and the
result is discarded).  `deliver`: a live main loop runs the oldest
queued `update_row`; a destroyed loop runs nothing.  `close`:
`on_close` (lines 528-541) returns at once when `_stop` is already set,
otherwise sets `_stop` and destroys the root; it runs atomically on
the main thread. -/
def sysStep (s : SysState) : SysEv → SysState
  | SysEv.post h p =>
    if s.alive then { s with pending := s.pending ++ [(h, p)] } else s
  | SysEv.deliver =>
    if s.alive then
      match s.pending with
      | [] => s
      | (h, p) :: rest =>
        { s with pending := rest, rows := applyUpdate s.rows h p }
    else s
  | SysEv.close =>
    if s.stopFlag then s else { s with stopFlag := true, alive := false }

/-- A sequence of interleaved events. -/
def sysRun (s : SysState) : List SysEv → SysState
  | [] => s
  | e :: es => sysRun (sysStep s e) es

lemma sysRun_append (s : SysState) (as bs : List SysEv) :
    sysRun s (as ++ bs) = sysRun (sysRun s as) bs := by
  induction as generalizing s with
  | nil => rfl
  | cons a as ih => exact ih (sysStep s a)

lemma sysStep_dead (s : SysState) (e : SysEv) (h : s.alive = false) :
    (sysStep s e).rows = s.rows ∧ (sysStep s e).alive = false := by
  cases e with
  | post hn pp => simp [sysStep, h]
  | deliver => simp [sysStep, h]
  | close =>
    simp only [sysStep]
    split
    · exact ⟨rfl, h⟩
    · exact ⟨rfl, rfl⟩

lemma sysRun_dead (evs : List SysEv) :
    ∀ s : SysState, s.alive = false →
      (sysRun s evs).rows = s.rows ∧ (sysRun s evs).alive = false := by
  induction evs with
  | nil => intro s h; exact ⟨rfl, h⟩
  | cons e es ih =>
    intro s h
    obtain ⟨hr, ha⟩ := sysStep_dead s e h
    obtain ⟨hr', ha'⟩ := ih (sysStep s e) ha
    exact ⟨hr.symm ▸ hr', ha'⟩

lemma sysStep_inv (s : SysState) (e : SysEv)
    (h : s.stopFlag = true → s.alive = false) :
    (sysStep s e).stopFlag = true → (sysStep s e).alive = false := by
  cases e with
  | post hn pp =>
    simp only [sysStep]
    split <;> exact h
  | deliver =>
    simp only [sysStep]
    split
    · split <;> exact h
    · exact h
  | close =>
    simp only [sysStep]
    split
    · exact h
    · intro _; rfl

lemma sysRun_inv (evs : List SysEv) :
    ∀ s : SysState, (s.stopFlag = true → s.alive = false) →
      ((sysRun s evs).stopFlag = true → (sysRun s evs).alive = false) := by
  induction evs with
  | nil => intro s h; exact h
  | cons e es ih => intro s h; exact ih _ (sysStep_inv s e h)

lemma sysStep_close_dead (s : SysState)
    (h : s.stopFlag = true → s.alive = false) :
    (sysStep s SysEv.close).alive = false := by
  simp only [sysStep]
  split
  · next hs => exact h hs
  · rfl

lemma update_row_fst_prev (st : RowState) (u : Bool) (r : Option ℚ) (t : Nat) :
    (update_row st u r t).1.prev = some u := rfl

lemma update_row_alertsDown (st : RowState) (u : Bool) (r : Option ℚ) (t : Nat) :
    (update_row st u r t).2.alertsDown =
      (match st.prev with
       | some true => !u
       | _ => false) := rfl

lemma update_row_hist_le (st : RowState) (u : Bool) (r : Option ℚ) (t : Nat)
    (h : st.hist.length ≤ MAX_RTT_POINTS) :
    ((update_row st u r t).1.hist).length ≤ MAX_RTT_POINTS := by
  simp only [update_row]
  split
  · simp only [List.length_drop, List.length_append, List.length_singleton]
    omega
  · next hc =>
    simp only [List.length_append, List.length_singleton] at hc ⊢
    omega

lemma runRow_hist_le (ps : List ProbeIn) :
    ∀ st : RowState, st.hist.length ≤ MAX_RTT_POINTS →
      ((runRow st ps).1.hist).length ≤ MAX_RTT_POINTS := by
  induction ps with
  | nil => intro st h; exact h
  | cons p ps ih =>
    intro st h
    exact ih _ (update_row_hist_le st p.is_up p.rtt p.tNow h)

lemma runRow_hist_app (ps : List ProbeIn) :
    ∀ st : RowState, st.hist.length + ps.length ≤ MAX_RTT_POINTS →
      (runRow st ps).1.hist =
        st.hist ++ ps.map (fun p => sampleOf p.is_up p.rtt p.tNow) := by
  induction ps with
  | nil => intro st _; simp [runRow]
  | cons p ps ih =>
    intro st h
    simp only [List.length_cons] at h
    have hlen : ¬ MAX_RTT_POINTS <
        (st.hist ++ [sampleOf p.is_up p.rtt p.tNow]).length := by
      simp only [List.length_append, List.length_singleton]
      omega
    have hstep : (stepRow st p).1.hist =
        st.hist ++ [sampleOf p.is_up p.rtt p.tNow] := by
      simp only [stepRow, update_row, hlen, if_false]
    have hstep_len : (stepRow st p).1.hist.length + ps.length ≤ MAX_RTT_POINTS := by
      rw [hstep]
      simp only [List.length_append, List.length_singleton]
      omega
    calc (runRow st (p :: ps)).1.hist
        = (runRow (stepRow st p).1 ps).1.hist := rfl
      _ = (stepRow st p).1.hist ++ ps.map (fun q => sampleOf q.is_up q.rtt q.tNow) :=
          ih _ hstep_len
      _ = st.hist ++ (p :: ps).map (fun q => sampleOf q.is_up q.rtt q.tNow) := by
          rw [hstep]; simp

/-- Claim C1: for every target, `update_row` emits a transition event
(calls `append_event`) iff the previously stored status is known (not
the initial `None`) and differs from the new probe's reachability; in
particular the first completed probe (stored status `None`) never emits
one, and a probe repeating the stored status never emits one. -/
theorem c1_transition_iff :
    (∀ (st : RowState) (u : Bool) (r : Option ℚ) (t : Nat),
      (update_row st u r t).2.emitsTransition = true ↔
        ∃ p, st.prev = some p ∧ p ≠ u)
    ∧ (∀ (u : Bool) (r : Option ℚ) (t : Nat) (hist : List Sample),
      (update_row ⟨none, hist⟩ u r t).2.emitsTransition = false)
    ∧ (∀ (st : RowState) (u : Bool) (r : Option ℚ) (t : Nat),
      st.prev = some u → (update_row st u r t).2.emitsTransition = false) := by
  refine ⟨?_, ?_, ?_⟩
  · intro st u r t
    rcases st with ⟨_ | p, hist⟩
    · simp [update_row]
    · cases p <;> cases u <;> simp [update_row]
  · intro u r t hist
    simp [update_row]
  · intro st u r t hp
    rcases st with ⟨prev, hist⟩
    simp only at hp
    subst hp
    cases u <;> simp [update_row]

/-- Claim C1 witness: concrete instances of all three parts. -/
theorem c1_witness :
    ((update_row ⟨some true, []⟩ false none 0).2.emitsTransition = true ↔
      ∃ p, (some true : Option Bool) = some p ∧ p ≠ false)
    ∧ (update_row ⟨none, []⟩ true none 0).2.emitsTransition = false
    ∧ (update_row ⟨some true, []⟩ true none 0).2.emitsTransition = false :=
  ⟨c1_transition_iff.1 ⟨some true, []⟩ false none 0,
   c1_transition_iff.2.1 true none 0 [],
   c1_transition_iff.2.2 ⟨some true, []⟩ true none 0 rfl⟩

/-- Claim C2: over any sequence of completed probes for one target, the
down-alert branch (warning dialog plus `send_telegram_alert`) fires
exactly on the probes where the stored previous status was known-up and
the new status is down: the per-probe alert flags equal `downFlags`
computed from the status sequence alone, so each up-to-down transition
alerts exactly once and every other probe (down-to-up, repeated status,
first probe) alerts zero times. -/
theorem c2_alert_flags (st : RowState) (ps : List ProbeIn) :
    ((runRow st ps).2).map RowOutput.alertsDown =
      downFlags st.prev (ps.map ProbeIn.is_up) := by
  induction ps generalizing st with
  | nil => rfl
  | cons p ps ih =>
    calc ((runRow st (p :: ps)).2).map RowOutput.alertsDown
        = (stepRow st p).2.alertsDown ::
            ((runRow (stepRow st p).1 ps).2).map RowOutput.alertsDown := rfl
      _ = (stepRow st p).2.alertsDown ::
            downFlags (stepRow st p).1.prev (ps.map ProbeIn.is_up) := by
          rw [ih]
      _ = downFlags st.prev ((p :: ps).map ProbeIn.is_up) := rfl

/-- Claim C3: the history capacity is 200; for every probe sequence the
stored history of a fresh target never exceeds 200 samples; and an
update on a full history (exactly 200 samples) evicts exactly the
single oldest sample (index 0), preserving the order of the rest, while
appending the new sample at the end. -/
theorem c3_history_bound_evict :
    MAX_RTT_POINTS = 200
    ∧ (∀ ps : List ProbeIn,
        ((runRow ⟨none, []⟩ ps).1.hist).length ≤ MAX_RTT_POINTS)
    ∧ (∀ (st : RowState) (u : Bool) (r : Option ℚ) (t : Nat),
        st.hist.length = MAX_RTT_POINTS →
          (update_row st u r t).1.hist = st.hist.tail ++ [sampleOf u r t]) := by
  refine ⟨rfl, ?_, ?_⟩
  · intro ps
    exact runRow_hist_le ps ⟨none, []⟩ (by simp)
  · intro st u r t h
    have hlt : MAX_RTT_POINTS < (st.hist ++ [sampleOf u r t]).length := by
      simp only [List.length_append, List.length_singleton]
      omega
    have h1 : (1 : Nat) ≤ st.hist.length := by
      rw [h]; decide
    simp only [update_row, hlt, if_true]
    rw [List.drop_append_of_le_length h1, List.drop_one]

/-- Claim C3 witness: updating a full 200-sample history evicts exactly
the oldest entry. -/
theorem c3_witness :
    (update_row ⟨some true, List.replicate 200 ((0 : Nat), (none : Option ℚ))⟩
        true (some 1) 7).1.hist =
      (List.replicate 200 ((0 : Nat), (none : Option ℚ))).tail ++
        [sampleOf true (some 1) 7] :=
  c3_history_bound_evict.2.2
    ⟨some true, List.replicate 200 ((0 : Nat), (none : Option ℚ))⟩
    true (some 1) 7 (by rw [List.length_replicate]; rfl)

/-- Claim C9: appending K ≤ 200 probe results to an initially empty
history yields exactly those K samples, in insertion order, and the
series read back by `update_graph` is their latency values in the same
order — no loss, duplication, or reordering below capacity. -/
theorem c9_roundtrip (ps : List ProbeIn) (h : ps.length ≤ MAX_RTT_POINTS) :
    (runRow ⟨none, []⟩ ps).1.hist =
        ps.map (fun p => sampleOf p.is_up p.rtt p.tNow)
    ∧ update_graph_ys ((runRow ⟨none, []⟩ ps).1.hist) =
        ps.map (fun p => if p.is_up then p.rtt else none) := by
  have hmain : (runRow ⟨none, []⟩ ps).1.hist =
      ps.map (fun p => sampleOf p.is_up p.rtt p.tNow) := by
    have := runRow_hist_app ps ⟨none, []⟩ (by simpa using h)
    simpa using this
  refine ⟨hmain, ?_⟩
  rw [update_graph_ys, hmain, List.map_map]
  rfl

/-- Claim C4: every execution error of the probe — an exception out of
`subprocess.run` (spawn failure included), a non-zero exit code, or an
exception raised while parsing the output — makes `ping_host` return
`(reachable := false, latency := none)`, the same value a timeout
produces; no error is propagated to the caller (the return type carries
no error). -/
theorem c4_probe_error_down (pf : List Char → Option ℚ) :
    ping_host pf ProcBehavior.raises = some (false, none)
    ∧ (∀ (rc : Int) (lines : List (List Char)) (e : ℚ), rc ≠ 0 →
        ping_host pf (ProcBehavior.exits rc lines e) = some (false, none))
    ∧ (∀ (lines : List (List Char)) (e : ℚ),
        scanLines lines = Except.error () →
          ping_host pf (ProcBehavior.exits 0 lines e) = some (false, none)) := by
  refine ⟨rfl, ?_, ?_⟩
  · intro rc lines e hrc
    simp only [ping_host, if_pos hrc]
  · intro lines e hscan
    simp only [ping_host, hscan]
    rfl

/-- Claim C4 witness: a non-zero exit and a parse-time exception both
yield `(false, none)`. -/
theorem c4_witness :
    ping_host (fun _ => none) (ProcBehavior.exits 1 [] 0) = some (false, none)
    ∧ ping_host (fun _ => none) (ProcBehavior.exits 0 ["a time=".toList] 0) =
        some (false, none) :=
  ⟨(c4_probe_error_down (fun _ => none)).2.1 1 [] 0 (by decide),
   (c4_probe_error_down (fun _ => none)).2.2 ["a time=".toList] 0 rfl⟩

/-- Claim C7 counterexample: `subprocess.run` is called with no
`timeout=` argument, so when the spawned `ping` process never exits the
probe never completes — `ping_host` yields no result at all, refuting
"for every behaviour of the underlying ping process, the probe
operation completes within the timeout budget and never blocks
indefinitely". -/
theorem c7_hang_cex :
    ping_host (fun _ => none) ProcBehavior.hangs = none := rfl

/-- Claim C7 as amended: the probe completes (with a success or failure
result) for every behaviour in which the underlying process call
returns — normal exit with any code or a raised exception; the timeout
budget is only passed to the `ping` command itself (`-w` in
milliseconds on Windows, `-W` in seconds elsewhere), the code does not
bound its wait on the subprocess, so completion relies on `ping`
honouring that flag and a never-exiting process blocks the probe
indefinitely. -/
theorem c7_terminates_when_proc_exits :
    (∀ (pf : List Char → Option ℚ) (b : ProcBehavior),
      b ≠ ProcBehavior.hangs → (ping_host pf b).isSome = true)
    ∧ (∀ (t : Nat) (h : String),
        pingCmd false t h = ["ping", "-c", "1", "-W", toString t, h])
    ∧ (∀ (t : Nat) (h : String),
        pingCmd true t h = ["ping", "-n", "1", "-w", toString (t * 1000), h]) := by
  refine ⟨?_, fun _ _ => rfl, fun _ _ => rfl⟩
  intro pf b hb
  cases b with
  | hangs => exact absurd rfl hb
  | raises => rfl
  | exits rc lines e => rfl

/-- Claim C7 witness: a raising subprocess still yields a result. -/
theorem c7_witness :
    (ping_host (fun _ => none) ProcBehavior.raises).isSome = true :=
  c7_terminates_when_proc_exits.1 (fun _ => none) ProcBehavior.raises (by decide)

/-- Claim C8 counterexample: with exit code 0 and the stdout line
`"x time="` (so no latency value can be parsed), `ping_host` returns
`(false, none)` rather than `(true, elapsed)`: `part.split()[0]` sits
outside the inner `try`, the `IndexError` it raises on the empty
remainder is caught by the outer handler, and the probe reports the
host down. -/
theorem c8_indexerror_cex :
    ping_host (fun _ => none) (ProcBehavior.exits 0 ["x time=".toList] 5) =
        some (false, none)
    ∧ some ((false : Bool), (none : Option ℚ)) ≠
        some ((true : Bool), some (pyRound1 (5 : ℚ))) :=
  ⟨rfl, by simp⟩

/-- Claim C8 as amended: if `ping` exits 0 and either no stdout line
contains `time=`, or the first such line has a whitespace-separated
token after `time=` that fails `float` parsing, then the probe returns
the wall-clock elapsed time rounded to one decimal as the latency and
reports reachable = true; however, when the first `time=` line has no
token following the marker, the raised `IndexError` escapes the inner
handler and the probe instead returns `(false, none)`. -/
theorem c8_elapsed_fallback (pf : List Char → Option ℚ)
    (lines : List (List Char)) (e : ℚ)
    (h : scanLines lines = Except.ok none ∨
      ∃ v, scanLines lines = Except.ok (some v) ∧ pf v = none) :
    ping_host pf (ProcBehavior.exits 0 lines e) =
      some (true, some (pyRound1 e)) := by
  have h0 : ¬ ((0 : Int) ≠ 0) := by decide
  rcases h with h | ⟨v, hv, hpf⟩
  · simp only [ping_host, if_neg h0, h]
  · simp only [ping_host, if_neg h0, hv, hpf]

/-- Claim C8 witness: an unreadable token after `time=` falls back to
the rounded elapsed time with reachable = true. -/
theorem c8_witness :
    ping_host (fun _ => none) (ProcBehavior.exits 0 ["time=abc".toList] 5) =
      some (true, some (pyRound1 5)) :=
  c8_elapsed_fallback (fun _ => none) ["time=abc".toList] 5
    (Or.inr ⟨"abc".toList, rfl, rfl⟩)

/-- Claim C10: whenever `ping_host` returns with reachable = true, the
latency is present: every success path supplies either the parsed
float or the elapsed-time fallback. -/
theorem c10_up_has_latency (pf : List Char → Option ℚ) (b : ProcBehavior)
    (res : Bool × Option ℚ) (h : ping_host pf b = some res)
    (hup : res.1 = true) : res.2.isSome = true := by
  cases b with
  | hangs => exact absurd h (by simp [ping_host])
  | raises =>
    simp only [ping_host, Option.some_inj] at h
    rw [← h] at hup
    exact absurd hup (by decide)
  | exits rc lines e =>
    simp only [ping_host, Option.some_inj] at h
    by_cases hrc : rc ≠ 0
    · rw [if_pos hrc] at h
      rw [← h] at hup
      exact absurd hup (by decide)
    · rw [if_neg hrc] at h
      rcases hscan : scanLines lines with u | ov
      · rw [hscan] at h
        dsimp only at h
        rw [← h] at hup
        exact absurd hup (by decide)
      · rcases ov with _ | v
        · rw [hscan] at h
          dsimp only at h
          rw [← h]
          rfl
        · rw [hscan] at h
          dsimp only at h
          rcases hpf : pf v with _ | r
          · rw [hpf] at h
            dsimp only at h
            rw [← h]
            rfl
          · rw [hpf] at h
            dsimp only at h
            rw [← h]
            rfl

/-- Claim C10 witness: a concrete success result carries a latency. -/
theorem c10_witness :
    (((true : Bool), some (pyRound1 (5 : ℚ))) : Bool × Option ℚ).2.isSome = true :=
  c10_up_has_latency (fun _ => none) (ProcBehavior.exits 0 [] 5)
    (true, some (pyRound1 5)) rfl rfl

/-- Claim C5 counterexample: within one tick `check_all_hosts` probes
the hosts sequentially in one worker thread, so a slow probe for the
first target delays the availability of the second target's result:
with durations `[100, 1]` the second host's result is posted at instant
101, while with `[1, 1]` it is posted at instant 2 — the first host's
slowness alone moved it.  This refutes "a slow probe for target A does
not delay the availability of the probe result for target B in the
same tick". -/
theorem c5_sequential_delay_cex :
    (check_all_hosts_availTimes [100, 1]).getD 1 0 = 101
    ∧ (check_all_hosts_availTimes [1, 1]).getD 1 0 = 2
    ∧ (101 : ℚ) ≠ 2 := by
  refine ⟨?_, ?_, by norm_num⟩
  · simp [check_all_hosts_availTimes, availTimes]
    norm_num
  · simp [check_all_hosts_availTimes, availTimes]
    norm_num

/-- Claim C5 as amended: within one scheduler tick the probes run
sequentially in a single worker thread in configuration order, so the
result of the i-th target becomes available only at the sum of the
probe durations of targets 0..i of that tick — a slow earlier probe
delays every later target's result.  (Distinct ticks do run in
separate threads: `schedule_checks` re-arms the timer without waiting
for the previous tick's thread.) -/
theorem c5_sequential_avail (ds : List ℚ) (i : Nat) (h : i < ds.length) :
    (check_all_hosts_availTimes ds).getD i 0 = (ds.take (i + 1)).sum := by
  have hmain := availTimes_getD ds 0 i h
  simpa [check_all_hosts_availTimes] using hmain

/-- Claim C5 witness: with durations `[100, 1]` the second host's
result is available only at instant 100 + 1. -/
theorem c5_witness :
    1 < ([100, 1] : List ℚ).length
    ∧ (check_all_hosts_availTimes [100, 1]).getD 1 0 =
        (([100, 1] : List ℚ).take 2).sum :=
  ⟨by norm_num, c5_sequential_avail [100, 1] 1 (by norm_num)⟩

/-- Claim C6: once `on_close` has completed (it sets `_stop` and
destroys the Tk root), no event sequence — in-flight probe results
being posted, the loop attempting deliveries, repeated close requests —
changes the per-target status/history map again: results arriving
after the stop are discarded.  The hypothesis states the evident
initial-state invariant (`_stop` is only ever set by `on_close`, which
destroys the root in the same call). -/
theorem c6_no_mutation_after_close (s0 : SysState)
    (hinv : s0.stopFlag = true → s0.alive = false)
    (pre evs : List SysEv) :
    (sysRun (sysRun s0 (pre ++ [SysEv.close])) evs).rows =
      (sysRun s0 (pre ++ [SysEv.close])).rows := by
  have h1 : sysRun s0 (pre ++ [SysEv.close]) =
      sysStep (sysRun s0 pre) SysEv.close := by
    rw [sysRun_append]; rfl
  have hpre := sysRun_inv pre s0 hinv
  have hdead : (sysRun s0 (pre ++ [SysEv.close])).alive = false := by
    rw [h1]; exact sysStep_close_dead _ hpre
  exact (sysRun_dead evs _ hdead).1

/-- Claim C6 witness: a concrete run in which a probe result posted
before the close is still pending and further posts and deliveries
arrive afterwards; the rows are unchanged after the close. -/
theorem c6_witness :
    (sysRun (sysRun ⟨false, true, [("a", ⟨none, []⟩)], []⟩
        ([SysEv.post "a" ⟨true, some 1, 0⟩] ++ [SysEv.close]))
        [SysEv.deliver, SysEv.post "a" ⟨false, none, 1⟩, SysEv.deliver]).rows =
      (sysRun ⟨false, true, [("a", ⟨none, []⟩)], []⟩
        ([SysEv.post "a" ⟨true, some 1, 0⟩] ++ [SysEv.close])).rows :=
  c6_no_mutation_after_close ⟨false, true, [("a", ⟨none, []⟩)], []⟩
    (fun hc => Bool.noConfusion hc)
    [SysEv.post "a" ⟨true, some 1, 0⟩]
    [SysEv.deliver, SysEv.post "a" ⟨false, none, 1⟩, SysEv.deliver]

/-- Claim C9 witness: a concrete two-probe round trip. -/
theorem c9_witness :
    (runRow ⟨none, []⟩ [⟨true, some 5, 1⟩, ⟨false, none, 2⟩]).1.hist =
        [sampleOf true (some 5) 1, sampleOf false none 2]
    ∧ update_graph_ys
        ((runRow ⟨none, []⟩ [⟨true, some 5, 1⟩, ⟨false, none, 2⟩]).1.hist) =
        [some 5, none] :=
  c9_roundtrip [⟨true, some 5, 1⟩, ⟨false, none, 2⟩] (by decide)

end PingMonitor
